import Mathlib

/-!
Verification of the EU_Compliance monitoring core against its specification.

The development shallowly embeds the Python sources:
  * `monitoring_system.py` — deduplication and merge engine
    (`check_regulatory_updates`), alert threshold evaluator and history
    ledger (`_check_and_send_alerts`), notification composition and
    dispatch (`_send_alerts_to_clients`);
  * `eu_regulatory_scraper.py` — date normalizer (`_format_ojdate`);
  * `ai_compliance_analyzer.py` — LLM boundary fallback
    (`analyze_compliance`).

Modelling conventions:
  * Python dicts become association lists whose insert semantics match
    dicts: a fresh key is appended at the end, an existing key keeps its
    position and gets the new value.
  * `discovered_date` timestamps are ISO-8601 strings produced by
    `datetime.now().isoformat()` and compared with string `>=`.  Between
    strings of that single fixed format, lexicographic order coincides
    with chronological order, so timestamps are embedded as `Int`
    instants (one unit = one day, matching `timedelta(days=7)`); the
    missing-key default `''`, which is `<` every ISO string, is embedded
    as `none : Option Int`.
  * Exceptions that the Python code lets escape are `Option`/`Except`
    values; exceptions the code catches and logs are modelled by the
    branch the handler takes.
-/

namespace EUCompliance

/-- One regulatory update record, the dict
`{title, date, content, url, source, method}` built by
`_scrape_eurlex_daily_by_ojdate` plus the `discovered_date` stamp added
by `check_regulatory_updates`.  `url` may be `None` in the source
(anchor-less rows), and `discovered_date` is absent until the merge
stamps it, hence the `Option`s. -/
structure UpdateRecord where
  title : String
  date : String
  content : String
  url : Option String
  discovered : Option Int
  deriving Repr, DecidableEq

/-- The persisted update log `regulatory_updates.json`: a JSON object
mapping source name to list of records, embedded as an association
list in dict insertion order. -/
abbrev UpdateLog := List (String × List UpdateRecord)

/-- A batch returned by `scraper.check_for_updates()`: a dict from
source key to the list of freshly scraped records. -/
abbrev Batch := List (String × List UpdateRecord)

/-- First-match association lookup, i.e. Python `d[k]` / `k in d`. -/
def getA {α : Type} (l : List (String × α)) (k : String) : Option α :=
  match l with
  | [] => none
  | (k₁, v₁) :: t => if k₁ = k then some v₁ else getA t k

/-- Python dict store `d[k] = v`: replace the value at an existing key
in place, or append the key at the end. -/
def setA {α : Type} (l : List (String × α)) (k : String) (v : α) :
    List (String × α) :=
  match l with
  | [] => [(k, v)]
  | (k₁, v₁) :: t => if k₁ = k then (k, v) :: t else (k₁, v₁) :: setA t k v

/-- The inner duplicate scan of `check_regulatory_updates` (lines
140-144): `is_new` is false exactly when some existing record for the
source has the same title. -/
def titleMem (l : List UpdateRecord) (t : String) : Bool :=
  l.any (fun r => r.title = t)

/-- Lines 138-149 for one source: fold the incoming records in order
over the current per-source list; a record whose title is absent is
stamped `discovered_date = now` and appended, a present title is
skipped.  Returns the new list and the number appended. -/
def mergeSource (cur : List UpdateRecord) (recs : List UpdateRecord)
    (now : Int) : List UpdateRecord × Nat :=
  match recs with
  | [] => (cur, 0)
  | r :: rest =>
    if titleMem cur r.title then
      mergeSource cur rest now
    else
      let m := mergeSource (cur ++ [{ r with discovered := some now }]) rest now
      (m.1, m.2 + 1)

/-- Lines 133-149 for one `(regulation_type, updates)` item of the
batch: ensure the source key exists (inserting `[]` at the end of the
dict when absent), then merge the incoming records into it. -/
def mergeStep (log : UpdateLog) (src : String) (recs : List UpdateRecord)
    (now : Int) : UpdateLog × Nat :=
  let m := mergeSource ((getA log src).getD []) recs now
  (setA log src m.1, m.2)

/-- The full merge loop of `check_regulatory_updates` (lines 131-150):
process every source of the batch in order; returns the updated log and
the total number of appended records (`has_new_updates` in the source is
this count being positive). -/
def merge (log : UpdateLog) (batch : Batch) (now : Int) : UpdateLog × Nat :=
  match batch with
  | [] => (log, 0)
  | (src, recs) :: rest =>
    let s := mergeStep log src recs now
    let m := merge s.1 rest now
    (m.1, s.2 + m.2)

/-- The titles currently stored for a source (empty when the source key
is absent). -/
def titlesAt (log : UpdateLog) (src : String) : List String :=
  ((getA log src).getD []).map (fun r => r.title)

/-! ## Alert threshold evaluator (`_check_and_send_alerts`, lines 192-204) -/

/-- Line 198, `update.get('discovered_date', '') >= threshold_date`:
a missing or empty `discovered_date` is the default `''`, which is `<`
every nonempty ISO timestamp, hence never recent. -/
def isRecent (thresholdDate : Int) (r : UpdateRecord) : Bool :=
  match r.discovered with
  | none => false
  | some t => thresholdDate ≤ t

/-- Lines 194-199: the nested loop over sources and records counting
recent updates. -/
def recentCount (updates : UpdateLog) (thresholdDate : Int) : Nat :=
  match updates with
  | [] => 0
  | (_, recs) :: rest =>
    (recs.filter (isRecent thresholdDate)).length + recentCount rest thresholdDate

/-- Lines 192-204: `threshold_date = now - timedelta(days=windowDays)`
(the source fixes `windowDays = 7` and reads `threshold` from the
config, default 3); the decision is `recent_update_count >=
alert_threshold`.  Returns (fire, matchedCount). -/
def evaluateAlert (updates : UpdateLog) (now windowDays : Int)
    (threshold : Nat) : Bool × Nat :=
  let c := recentCount updates (now - windowDays)
  (threshold ≤ c, c)

/-! ## Cycle skeleton (`check_regulatory_updates`, lines 110-164)

The durable write `json.dump(existing_updates, f)` is the only
persistence effect; it is modelled as an atomic external operation that
either succeeds or raises (parameter `writeOk`).  The `except` handler
on lines 161-162 only logs; the function returns `has_new_updates` on
every path that reaches line 164. -/

/-- Observable outcome of one `check_regulatory_updates` call:
the log that is durably persisted afterwards, whether
`_check_and_send_alerts` ran, and the value returned to the caller. -/
structure CycleResult where
  persisted : UpdateLog
  alertsEvaluated : Bool
  ret : Bool
  deriving Repr, DecidableEq

/-- Lines 131-164: merge the batch; if anything was added, attempt the
durable write; on success evaluate alerts, on failure log and fall
through; return `has_new_updates` either way. -/
def checkRegulatoryUpdates (existing : UpdateLog) (batch : Batch)
    (now : Int) (writeOk : Bool) : CycleResult :=
  let merged := (merge existing batch now).1
  let hasNew := decide (0 < (merge existing batch now).2)
  if hasNew then
    if writeOk then
      { persisted := merged, alertsEvaluated := true, ret := true }
    else
      { persisted := existing, alertsEvaluated := false, ret := true }
  else
    { persisted := existing, alertsEvaluated := false, ret := false }

/-! ## Notification composition (`_send_alerts_to_clients`, lines 255-272) -/

/-- The sort key of line 260, `x.get('discovered_date', '')`: the
default `''` orders below every ISO timestamp, so it is `⊥`. -/
def sortKey (r : UpdateRecord) : WithBot Int :=
  match r.discovered with
  | none => ⊥
  | some t => (t : WithBot Int)

/-- Stable descending insertion: place `x` after every element whose
key is strictly greater, before the first whose key is `≤` — exactly
the ordering contract of Python `sorted(key=..., reverse=True)`, which
is stable. -/
def insertDesc (x : UpdateRecord) (l : List UpdateRecord) :
    List UpdateRecord :=
  match l with
  | [] => [x]
  | h :: t => if sortKey x < sortKey h then h :: insertDesc x t else x :: h :: t

/-- `sorted(regulation_updates, key=lambda x: x.get('discovered_date', ''),
reverse=True)` of line 260: stable, descending by discovery stamp. -/
def sortDesc (l : List UpdateRecord) : List UpdateRecord :=
  match l with
  | [] => []
  | h :: t => insertDesc h (sortDesc t)

/-- One rendered update block (lines 263-270): the four fields
interpolated into the HTML, with the `dict.get` defaults of the
source.  The content is interpolated whole — no truncation happens in
this renderer. -/
structure RenderedUpdate where
  title : String
  date : String
  content : String
  url : String
  deriving Repr, DecidableEq

/-- Lines 265-268: `update.get('title', 'Untitled')` etc.  `title`,
`date`, `content` and `url` are always present as keys on records this
program builds (the scraper sets them all, lines 220-227 of
`eu_regulatory_scraper.py`), so the `dict.get` defaults never fire.
For an anchor-less row the stored `url` value is `None`; `get` returns
that stored `None` — not the `'#'` default, which only covers an
absent key — and the f-string interpolates it as the literal text
`None`. -/
def renderUpdate (r : UpdateRecord) : RenderedUpdate :=
  { title := r.title, date := r.date, content := r.content,
    url := match r.url with
           | none => "None"
           | some u => u }

/-- Lines 256-272: the e-mail body walks `updates.items()` — every
source in the log passed in — and for each shows the first 3 entries of
the descending stable sort by discovery stamp. -/
def composeAlertBody (updates : UpdateLog) :
    List (String × List RenderedUpdate) :=
  updates.map (fun p => (p.1, ((sortDesc p.2).take 3).map renderUpdate))

/-! ## Dispatch loop and alert history ledger
(`_send_alerts_to_clients` lines 286-312, `_check_and_send_alerts`
lines 210-225) -/

/-- Lines 289-312: each client is processed inside its own
`try/except`; a delivery failure is logged and the loop continues.  The
environment decides per client whether SMTP delivery succeeds
(`deliverOk`); the outcome list records one attempt per client. -/
def sendAlertsToClients (clients : List String)
    (deliverOk : String → Bool) : List (String × Bool) :=
  match clients with
  | [] => []
  | c :: rest => (c, deliverOk c) :: sendAlertsToClients rest deliverOk

/-- The `client_alerts[alert_id]` entry of lines 212-217. -/
structure AlertEvent where
  id : String
  date : Int
  updateCount : Nat
  updatesSent : Bool
  deriving Repr, DecidableEq

/-- The alert history ledger `client_alerts_db.json`, a JSON object
keyed by alert id, in dict insertion order. -/
abbrev Ledger := List (String × AlertEvent)

/-- Line 211: the alert id is the literal `alert_` followed by the
firing time formatted to second resolution (strftime with a
year-to-second pattern).  With time embedded as whole seconds the
format is injective on the instant, so two evaluations in the same
second share one id. -/
def alertId (now : Int) : String :=
  "alert_" ++ toString now

/-- Lines 211-217: the event stored under `alertId now`;
`updates_sent` is hardcoded `True` regardless of delivery outcomes. -/
def mkAlertEvent (now : Int) (count : Nat) : AlertEvent :=
  { id := alertId now, date := now, updateCount := count,
    updatesSent := true }

/-- Lines 210-217 as a ledger operation: `client_alerts[alert_id] = {...}`
with Python dict assignment semantics (`setA`). -/
def recordAlert (ledger : Ledger) (now : Int) (count : Nat) : Ledger :=
  setA ledger (alertId now) (mkAlertEvent now count)

/-- Lines 196-225 of `_check_and_send_alerts` after the loads: count,
compare with the threshold, and when firing dispatch to every client
and append the alert event to the ledger. -/
def checkAndSendAlerts (updates : UpdateLog) (clients : List String)
    (ledger : Ledger) (deliverOk : String → Bool) (now windowDays : Int)
    (threshold : Nat) : List (String × Bool) × Ledger :=
  if (evaluateAlert updates now windowDays threshold).1 then
    (sendAlertsToClients clients deliverOk,
      recordAlert ledger now (evaluateAlert updates now windowDays threshold).2)
  else
    ([], ledger)

/-! ## Date normalizer (`eu_regulatory_scraper._format_ojdate`, lines 150-179)

Strings are handled as their character lists.  The three regexes of the
source are translated as follows:
  * `^(\d{4})-(\d{1,2})-(\d{1,2})$` and `^(\d{1,2})-(\d{1,2})-(\d{4})$`
    each require exactly two literal dashes with all-digit groups of the
    stated widths, i.e. splitting on the dash yields exactly three
    all-digit parts of those widths (`\d` cannot match a dash, so the
    translation is exact);
  * `^(\d{2})(\d{2})(\d{4})$` is exactly eight digits.
`int(...)` on a 1-2 digit group followed by `f"{...:02d}"` is a value
below 100 printed zero-padded to width 2. -/

/-- Input to `_format_ojdate`: a `datetime`/`date` object or a string.
A date object only carries what `strftime("%d%m%Y")` reads. -/
inductive DateInput where
  | dateObj (day month year : Nat)
  | str (s : String)

/-- Decimal digit character of `n % 10`. -/
def digitChar (n : Nat) : Char :=
  Char.ofNat (48 + n % 10)

/-- `f"{n:02d}"` for `n < 100` (day and month fields are below 100). -/
def pad2 (n : Nat) : List Char :=
  [digitChar (n / 10), digitChar n]

/-- `strftime("%Y")` for `n < 10000` (Python date years are 1-9999,
zero-padded to four digits). -/
def pad4 (n : Nat) : List Char :=
  [digitChar (n / 1000), digitChar (n / 100), digitChar (n / 10), digitChar n]

/-- The ASCII whitespace set stripped by Python `str.strip()`. -/
def pyIsSpace (c : Char) : Bool :=
  c = ' ' || c = '\t' || c = '\n' || c = '\r' || c = '\x0b' || c = '\x0c'

/-- `s.strip()` on the character list. -/
def pyStrip (cs : List Char) : List Char :=
  ((cs.dropWhile pyIsSpace).reverse.dropWhile pyIsSpace).reverse

/-- Split on the dash character; always returns one part more than the
number of dashes. -/
def splitDash (cs : List Char) : List (List Char) :=
  match cs with
  | [] => [[]]
  | c :: t =>
    match splitDash t with
    | [] => [[]]
    | h :: r => if c = '-' then [] :: h :: r else (c :: h) :: r

/-- All characters are ASCII decimal digits. -/
def allDigits (cs : List Char) : Bool :=
  cs.all Char.isDigit

/-- `int(...)` on a digit string. -/
def natOfDigits (cs : List Char) : Nat :=
  cs.foldl (fun a c => 10 * a + (c.toNat - 48)) 0

/-- The regex `^(\d{4})-(\d{1,2})-(\d{1,2})$` (line 166), returning
the groups `(y, mo, da)` on a match. -/
def matchYMD (cs : List Char) : Option (List Char × List Char × List Char) :=
  match splitDash cs with
  | [y, mo, da] =>
    if allDigits y && y.length == 4
        && allDigits mo && 1 ≤ mo.length && mo.length ≤ 2
        && allDigits da && 1 ≤ da.length && da.length ≤ 2 then
      some (y, mo, da)
    else none
  | _ => none

/-- The regex `^(\d{1,2})-(\d{1,2})-(\d{4})$` (line 171), returning
the groups `(da, mo, y)` on a match. -/
def matchDMY (cs : List Char) : Option (List Char × List Char × List Char) :=
  match splitDash cs with
  | [da, mo, y] =>
    if allDigits da && 1 ≤ da.length && da.length ≤ 2
        && allDigits mo && 1 ≤ mo.length && mo.length ≤ 2
        && allDigits y && y.length == 4 then
      some (da, mo, y)
    else none
  | _ => none

/-- The regex `^(\d{2})(\d{2})(\d{4})$` (line 176): exactly eight
digits. -/
def matchCompact (cs : List Char) : Bool :=
  cs.length == 8 && allDigits cs

/-- `_format_ojdate` (lines 150-179): date objects are formatted with
`strftime("%d%m%Y")`; strings are stripped and tried against the three
regexes in order; anything else raises `ValueError`, embedded as
`none`. -/
def formatOjdate (input : DateInput) : Option String :=
  match input with
  | .dateObj d m y => some (String.mk (pad2 d ++ pad2 m ++ pad4 y))
  | .str s =>
    let cs := pyStrip s.data
    match matchYMD cs with
    | some (y, mo, da) =>
      some (String.mk (pad2 (natOfDigits da) ++ pad2 (natOfDigits mo) ++ y))
    | none =>
      match matchDMY cs with
      | some (da, mo, y) =>
        some (String.mk (pad2 (natOfDigits da) ++ pad2 (natOfDigits mo) ++ y))
      | none =>
        if matchCompact cs then some (String.mk cs) else none

/-! ## LLM analysis boundary (`ai_compliance_analyzer.analyze_compliance`,
lines 42-88) -/

/-- One entry of `action_items` per the documented schema. -/
structure ActionItem where
  action : String
  priority : String
  timeline : String
  estimatedCost : String
  deriving Repr, DecidableEq

/-- The analysis object the boundary returns: the keys the fallback of
lines 64-71 sets.  The metadata keys added on lines 74-75
(`analysis_date`, `business_info`) are orthogonal to the parse outcome
and not modelled. -/
structure AnalysisResult where
  regulatoryRequirements : List String
  complianceGaps : List String
  actionItems : List ActionItem
  risks : List String
  overallComplianceScore : Int
  rawResponse : Option String
  deriving Repr, DecidableEq

/-- Lines 64-71: the object built when `json.loads(response_content)`
raises `JSONDecodeError`. -/
def parseFallback (content : String) : AnalysisResult :=
  { regulatoryRequirements := ["Error parsing AI response"],
    complianceGaps := ["Please try again"],
    actionItems := [],
    risks := ["Unable to complete analysis"],
    overallComplianceScore := 0,
    rawResponse := some content }

/-- Lines 60-71 of `analyze_compliance`: `parsed` is the outcome of
`json.loads` on the model response `content` (the parser is external
stdlib code; `none` is the `JSONDecodeError` branch).  The function is
total: no exception crosses this boundary on malformed output. -/
def analyzeCompliance (parsed : Option AnalysisResult) (content : String) :
    AnalysisResult :=
  match parsed with
  | some r => r
  | none => parseFallback content

/-! ## Specification-side definitions

These follow the words of the specification (not the source) and are
compared against the embedded code in the claim theorems. -/

/-- Spec side, claim C4: membership in the trailing window
`[now - windowDays, now]`, inclusive lower bound and bounded above by
the evaluation time. -/
def inWindow (now windowDays : Int) (r : UpdateRecord) : Bool :=
  match r.discovered with
  | none => false
  | some t => now - windowDays ≤ t && t ≤ now

/-- Spec side, claim C4: the number of records across all sources whose
discovery stamp lies in the trailing window. -/
def specWindowCount (updates : UpdateLog) (now windowDays : Int) : Nat :=
  ((updates.map Prod.snd).flatten.filter (inWindow now windowDays)).length

/-- Spec side, claim C5: a string of the exact fixed-width shape
`YYYY-MM-DD` (4-2-2 digit groups). -/
def specFixedYMD (s : String) : Bool :=
  match splitDash s.data with
  | [y, mo, da] =>
    allDigits y && y.length == 4 && allDigits mo && mo.length == 2
      && allDigits da && da.length == 2
  | _ => false

/-- Spec side, claim C5: a string of the exact fixed-width shape
`DD-MM-YYYY` (2-2-4 digit groups). -/
def specFixedDMY (s : String) : Bool :=
  match splitDash s.data with
  | [da, mo, y] =>
    allDigits da && da.length == 2 && allDigits mo && mo.length == 2
      && allDigits y && y.length == 4
  | _ => false

/-- Spec side, claim C5: one of the three recognized digits-only
fixed-width formats, applied to the input string itself. -/
def specAccepted (s : String) : Bool :=
  specFixedYMD s || specFixedDMY s || matchCompact s.data

/-- Claim C10: the log with every record that lacks a discovery stamp
removed. -/
def dropUndiscovered (updates : UpdateLog) : UpdateLog :=
  updates.map (fun p => (p.1, p.2.filter (fun r => r.discovered.isSome)))

/-! ## Association-list lemmas -/

theorem setA_cons_self {α : Type} (t : List (String × α)) (k : String)
    (v₁ v : α) : setA ((k, v₁) :: t) k v = (k, v) :: t := by
  simp [setA]

theorem setA_cons_ne {α : Type} (t : List (String × α)) {k₁ k : String}
    (v₁ v : α) (h : k₁ ≠ k) :
    setA ((k₁, v₁) :: t) k v = (k₁, v₁) :: setA t k v := by
  simp [setA, h]

theorem getA_setA_self {α : Type} (l : List (String × α)) (k : String) (v : α) :
    getA (setA l k v) k = some v := by
  induction l with
  | nil => simp [setA, getA]
  | cons p t ih =>
    obtain ⟨k₁, v₁⟩ := p
    by_cases h : k₁ = k <;> simp [setA, getA, h, ih]

theorem getA_setA_ne {α : Type} (l : List (String × α)) (k k₂ : String) (v : α)
    (h : k ≠ k₂) : getA (setA l k v) k₂ = getA l k₂ := by
  induction l with
  | nil => simp [setA, getA, h]
  | cons p t ih =>
    obtain ⟨k₁, v₁⟩ := p
    by_cases h₁ : k₁ = k
    · subst h₁; simp [setA, getA, h, Ne.symm h, ih]
    · by_cases h₂ : k₁ = k₂ <;> simp [setA, getA, h₁, h₂, Ne.symm h, ih]

theorem setA_self {α : Type} (l : List (String × α)) (k : String) (v : α)
    (h : getA l k = some v) : setA l k v = l := by
  induction l with
  | nil => simp [getA] at h
  | cons p t ih =>
    obtain ⟨k₁, v₁⟩ := p
    by_cases h₁ : k₁ = k
    · subst h₁
      simp [getA] at h
      simp [setA, h]
    · simp [getA, h₁] at h
      simp [setA, h₁, ih h]

theorem mem_setA {α : Type} {l : List (String × α)} {k : String} {v : α}
    {p : String × α} (h : p ∈ setA l k v) : p = (k, v) ∨ p ∈ l := by
  induction l with
  | nil => simpa [setA] using h
  | cons q t ih =>
    obtain ⟨k₁, v₁⟩ := q
    by_cases h₁ : k₁ = k
    · simp [setA, h₁] at h
      rcases h with h | h
      · exact Or.inl h
      · exact Or.inr (List.mem_cons_of_mem _ h)
    · simp [setA, h₁] at h
      rcases h with h | h
      · exact Or.inr (by simp [h])
      · rcases ih h with h₂ | h₂
        · exact Or.inl h₂
        · exact Or.inr (List.mem_cons_of_mem _ h₂)

theorem mem_setA_of_mem {α : Type} {l : List (String × α)} {k a : String}
    {v b : α} (h : (a, b) ∈ l) (hne : a ≠ k) : (a, b) ∈ setA l k v := by
  induction l with
  | nil => simp at h
  | cons q t ih =>
    obtain ⟨k₁, v₁⟩ := q
    by_cases h₁ : k₁ = k
    · subst h₁
      rcases List.mem_cons.mp h with h₂ | h₂
      · exact absurd (congrArg Prod.fst h₂) hne
      · rw [setA_cons_self]
        exact List.mem_cons_of_mem _ h₂
    · rcases List.mem_cons.mp h with h₂ | h₂
      · simp only [setA, if_neg h₁, List.mem_cons]
        exact Or.inl h₂
      · simp only [setA, if_neg h₁, List.mem_cons]
        exact Or.inr (ih h₂)

theorem setA_of_getA_none {α : Type} (l : List (String × α)) (k : String)
    (v : α) (h : getA l k = none) : setA l k v = l ++ [(k, v)] := by
  induction l with
  | nil => simp [setA]
  | cons p t ih =>
    obtain ⟨k₁, v₁⟩ := p
    by_cases h₁ : k₁ = k
    · simp [getA, h₁] at h
    · simp [getA, h₁] at h
      simp [setA, h₁, ih h]

theorem keys_setA_sub {α : Type} {l : List (String × α)} {k a : String}
    {v : α} (h : a ∈ (setA l k v).map Prod.fst) :
    a ∈ l.map Prod.fst ∨ a = k := by
  rcases List.mem_map.mp h with ⟨p, hp, hpa⟩
  rcases mem_setA hp with h₁ | h₁
  · subst h₁; exact Or.inr hpa.symm
  · exact Or.inl (List.mem_map.mpr ⟨p, h₁, hpa⟩)

theorem nodup_keys_setA {α : Type} {l : List (String × α)} (k : String)
    (v : α) (h : (l.map Prod.fst).Nodup) :
    ((setA l k v).map Prod.fst).Nodup := by
  induction l with
  | nil => simp [setA]
  | cons p t ih =>
    obtain ⟨k₁, v₁⟩ := p
    rw [List.map_cons, List.nodup_cons] at h
    by_cases h₁ : k₁ = k
    · subst h₁
      rw [setA_cons_self, List.map_cons, List.nodup_cons]
      exact h
    · rw [setA_cons_ne t v₁ v h₁, List.map_cons, List.nodup_cons]
      refine ⟨fun h₂ => ?_, ih h.2⟩
      rcases keys_setA_sub h₂ with h₃ | h₃
      · exact h.1 h₃
      · exact h₁ h₃

theorem getA_mem {α : Type} {l : List (String × α)} {k : String} {v : α}
    (h : getA l k = some v) : (k, v) ∈ l := by
  induction l with
  | nil => simp [getA] at h
  | cons p t ih =>
    obtain ⟨k₁, v₁⟩ := p
    by_cases h₁ : k₁ = k
    · subst h₁
      simp [getA] at h
      simp [h]
    · simp [getA, h₁] at h
      exact List.mem_cons_of_mem _ (ih h)

theorem getA_isSome_setA {α : Type} (l : List (String × α)) (k k₂ : String)
    (v : α) (h : (getA l k₂).isSome) : (getA (setA l k v) k₂).isSome := by
  by_cases h₁ : k = k₂
  · subst h₁; simp [getA_setA_self]
  · rwa [getA_setA_ne l k k₂ v h₁]

/-! ## Merge-engine lemmas -/

theorem titleMem_iff (l : List UpdateRecord) (t : String) :
    titleMem l t = true ↔ t ∈ l.map (fun r => r.title) := by
  unfold titleMem
  rw [List.any_eq_true]
  constructor
  · rintro ⟨r, hr, he⟩
    exact List.mem_map.mpr ⟨r, hr, by simpa using he⟩
  · intro h
    rcases List.mem_map.mp h with ⟨r, hr, he⟩
    exact ⟨r, hr, by simpa using he⟩

theorem mergeSource_cons_pos (cur : List UpdateRecord) (r : UpdateRecord)
    (rest : List UpdateRecord) (now : Int)
    (h : titleMem cur r.title = true) :
    mergeSource cur (r :: rest) now = mergeSource cur rest now := by
  simp [mergeSource, h]

theorem mergeSource_cons_neg (cur : List UpdateRecord) (r : UpdateRecord)
    (rest : List UpdateRecord) (now : Int)
    (h : titleMem cur r.title = false) :
    mergeSource cur (r :: rest) now =
      ((mergeSource (cur ++ [{ r with discovered := some now }]) rest now).1,
       (mergeSource (cur ++ [{ r with discovered := some now }]) rest now).2 + 1) := by
  simp [mergeSource, h]

theorem mergeSource_fst_mono (recs : List UpdateRecord)
    (cur : List UpdateRecord) (now : Int) {t : String}
    (h : t ∈ cur.map (fun r => r.title)) :
    t ∈ (mergeSource cur recs now).1.map (fun r => r.title) := by
  induction recs generalizing cur with
  | nil => simpa [mergeSource] using h
  | cons r rest ih =>
    cases h₁ : titleMem cur r.title with
    | true =>
      rw [mergeSource_cons_pos cur r rest now h₁]
      exact ih cur h
    | false =>
      rw [mergeSource_cons_neg cur r rest now h₁]
      exact ih _ (by simp only [List.map_append, List.mem_append]; exact Or.inl h)

theorem mergeSource_mem (recs : List UpdateRecord) (cur : List UpdateRecord)
    (now : Int) : ∀ r ∈ recs,
    r.title ∈ (mergeSource cur recs now).1.map (fun x => x.title) := by
  induction recs generalizing cur with
  | nil => simp
  | cons q rest ih =>
    intro r hr
    rcases List.mem_cons.mp hr with h₂ | h₂
    · subst h₂
      cases h₁ : titleMem cur r.title with
      | true =>
        rw [mergeSource_cons_pos cur r rest now h₁]
        exact mergeSource_fst_mono rest cur now ((titleMem_iff cur r.title).mp h₁)
      | false =>
        rw [mergeSource_cons_neg cur r rest now h₁]
        exact mergeSource_fst_mono rest _ now
          (by simp only [List.map_append, List.mem_append]; right; simp)
    · cases h₁ : titleMem cur q.title with
      | true =>
        rw [mergeSource_cons_pos cur q rest now h₁]
        exact ih cur r h₂
      | false =>
        rw [mergeSource_cons_neg cur q rest now h₁]
        exact ih _ r h₂

theorem mergeSource_nodup (recs : List UpdateRecord) (cur : List UpdateRecord)
    (now : Int) (h : (cur.map (fun r => r.title)).Nodup) :
    ((mergeSource cur recs now).1.map (fun r => r.title)).Nodup := by
  induction recs generalizing cur with
  | nil => simpa [mergeSource] using h
  | cons r rest ih =>
    cases h₁ : titleMem cur r.title with
    | true =>
      rw [mergeSource_cons_pos cur r rest now h₁]
      exact ih cur h
    | false =>
      rw [mergeSource_cons_neg cur r rest now h₁]
      refine ih _ ?_
      have h₂ : r.title ∉ cur.map (fun x => x.title) := fun hmem =>
        by rw [(titleMem_iff cur r.title).mpr hmem] at h₁; cases h₁
      simp [List.nodup_append, h, h₂]

theorem mergeSource_noop (recs : List UpdateRecord) (cur : List UpdateRecord)
    (now : Int) (h : ∀ r ∈ recs, titleMem cur r.title = true) :
    mergeSource cur recs now = (cur, 0) := by
  induction recs with
  | nil => rfl
  | cons r rest ih =>
    rw [mergeSource_cons_pos cur r rest now (h r (List.mem_cons_self r rest))]
    exact ih (fun q hq => h q (List.mem_cons_of_mem r hq))

theorem titlesAt_mergeStep_self (log : UpdateLog) (src : String)
    (recs : List UpdateRecord) (now : Int) :
    titlesAt (mergeStep log src recs now).1 src =
      (mergeSource ((getA log src).getD []) recs now).1.map (fun r => r.title) := by
  simp [mergeStep, titlesAt, getA_setA_self]

theorem titlesAt_mergeStep_ne (log : UpdateLog) {src src₂ : String}
    (recs : List UpdateRecord) (now : Int) (h : src ≠ src₂) :
    titlesAt (mergeStep log src recs now).1 src₂ = titlesAt log src₂ := by
  simp [mergeStep, titlesAt, getA_setA_ne _ _ _ _ h]

theorem titlesAt_mergeStep_mono (log : UpdateLog) (src src₂ : String)
    (recs : List UpdateRecord) (now : Int) {t : String}
    (h : t ∈ titlesAt log src₂) :
    t ∈ titlesAt (mergeStep log src recs now).1 src₂ := by
  by_cases h₁ : src = src₂
  · subst h₁
    rw [titlesAt_mergeStep_self]
    exact mergeSource_fst_mono recs _ now h
  · rwa [titlesAt_mergeStep_ne log recs now h₁]

theorem mem_titlesAt_mergeStep (log : UpdateLog) (src : String)
    (recs : List UpdateRecord) (now : Int) {r : UpdateRecord} (h : r ∈ recs) :
    r.title ∈ titlesAt (mergeStep log src recs now).1 src := by
  rw [titlesAt_mergeStep_self]
  exact mergeSource_mem recs _ now r h

theorem getA_mergeStep_isSome_self (log : UpdateLog) (src : String)
    (recs : List UpdateRecord) (now : Int) :
    (getA (mergeStep log src recs now).1 src).isSome := by
  simp [mergeStep, getA_setA_self]

theorem getA_mergeStep_isSome_mono (log : UpdateLog) (src s : String)
    (recs : List UpdateRecord) (now : Int) (h : (getA log s).isSome) :
    (getA (mergeStep log src recs now).1 s).isSome :=
  getA_isSome_setA log src s _ h

theorem titlesAt_merge_mono (batch : Batch) (log : UpdateLog) (now : Int)
    (s : String) {t : String} (h : t ∈ titlesAt log s) :
    t ∈ titlesAt (merge log batch now).1 s := by
  induction batch generalizing log with
  | nil => simpa [merge] using h
  | cons q rest ih =>
    obtain ⟨src, recs⟩ := q
    simp only [merge]
    exact ih _ (titlesAt_mergeStep_mono log src s recs now h)

theorem getA_merge_isSome_mono (batch : Batch) (log : UpdateLog) (now : Int)
    (s : String) (h : (getA log s).isSome) :
    (getA (merge log batch now).1 s).isSome := by
  induction batch generalizing log with
  | nil => simpa [merge] using h
  | cons q rest ih =>
    obtain ⟨src, recs⟩ := q
    simp only [merge]
    exact ih _ (getA_mergeStep_isSome_mono log src s recs now h)

theorem merge_covers (batch : Batch) (log : UpdateLog) (now : Int) :
    ∀ p ∈ batch, (getA (merge log batch now).1 p.1).isSome ∧
      ∀ r ∈ p.2, r.title ∈ titlesAt (merge log batch now).1 p.1 := by
  induction batch generalizing log with
  | nil => simp
  | cons q rest ih =>
    obtain ⟨src, recs⟩ := q
    intro p hp
    rcases List.mem_cons.mp hp with h₂ | h₂
    · subst h₂
      simp only [merge]
      constructor
      · exact getA_merge_isSome_mono rest _ now src
          (getA_mergeStep_isSome_self log src recs now)
      · intro r hr
        exact titlesAt_merge_mono rest _ now src
          (mem_titlesAt_mergeStep log src recs now hr)
    · simp only [merge]
      exact ih _ p h₂

theorem mergeStep_noop (log : UpdateLog) (src : String)
    (recs : List UpdateRecord) (now : Int) {cur : List UpdateRecord}
    (h₁ : getA log src = some cur)
    (h₂ : ∀ r ∈ recs, titleMem cur r.title = true) :
    mergeStep log src recs now = (log, 0) := by
  simp [mergeStep, h₁, mergeSource_noop recs cur now h₂, setA_self log src cur h₁]

theorem merge_noop (batch : Batch) (log : UpdateLog) (now : Int)
    (h : ∀ p ∈ batch, ∃ cur, getA log p.1 = some cur ∧
      ∀ r ∈ p.2, titleMem cur r.title = true) :
    merge log batch now = (log, 0) := by
  induction batch with
  | nil => rfl
  | cons q rest ih =>
    obtain ⟨src, recs⟩ := q
    obtain ⟨cur, hc, ht⟩ := h (src, recs) (List.mem_cons_self _ _)
    simp only [merge, mergeStep_noop log src recs now hc ht]
    simp [ih (fun p hp => h p (List.mem_cons_of_mem _ hp))]

theorem mergeStep_nodup_titles (log : UpdateLog) (src : String)
    (recs : List UpdateRecord) (now : Int)
    (htitles : ∀ p ∈ log, (p.2.map (fun r => r.title)).Nodup) :
    ∀ p ∈ (mergeStep log src recs now).1, (p.2.map (fun r => r.title)).Nodup := by
  intro p hp
  rcases mem_setA hp with h₁ | h₁
  · subst h₁
    apply mergeSource_nodup
    cases hg : getA log src with
    | none => simp
    | some cur => simpa using htitles (src, cur) (getA_mem hg)
  · exact htitles p h₁

/-! ## Concrete fixtures used by witnesses and counterexamples -/

/-- A sample update record with the given title and discovery stamp. -/
def mkRec (t : String) (d : Option Int) : UpdateRecord :=
  { title := t, date := "2025-09-10", content := "body", url := some "u",
    discovered := d }

def demoLog : UpdateLog := [("eur-lex", [mkRec "Reg A" (some 1)])]

def demoBatch : Batch :=
  [("eur-lex", [mkRec "Reg A" none, mkRec "Reg B" none, mkRec "Reg B" none])]

/-! ## Claim theorems -/

/-- C1: the merge appends a record only when no record with the same
title is already present for that source, the membership test seeing
records appended earlier in the same call; hence whenever the existing
log holds at most one record per `(source, title)` pair — distinct
entries have distinct source keys and each entry has pairwise distinct
titles — the merged log does too, identity being exact title
equality. -/
theorem claim_C1_merge_dedup (log : UpdateLog) (batch : Batch) (now : Int)
    (hkeys : (log.map Prod.fst).Nodup)
    (htitles : ∀ p ∈ log, (p.2.map (fun r => r.title)).Nodup) :
    ((merge log batch now).1.map Prod.fst).Nodup ∧
      ∀ p ∈ (merge log batch now).1, (p.2.map (fun r => r.title)).Nodup := by
  induction batch generalizing log with
  | nil => exact ⟨hkeys, htitles⟩
  | cons q rest ih =>
    obtain ⟨src, recs⟩ := q
    simp only [merge]
    exact ih _ (nodup_keys_setA src _ hkeys)
      (mergeStep_nodup_titles log src recs now htitles)

/-- C1 witness: the guarantee evaluated on a concrete log and a batch
holding a within-batch duplicate title. -/
theorem claim_C1_merge_dedup_witness :
    ((demoLog.map Prod.fst).Nodup ∧
      ∀ p ∈ demoLog, (p.2.map (fun r => r.title)).Nodup) ∧
    (((merge demoLog demoBatch 5).1.map Prod.fst).Nodup ∧
      ∀ p ∈ (merge demoLog demoBatch 5).1,
        (p.2.map (fun r => r.title)).Nodup) :=
  ⟨⟨by decide, by decide⟩,
    claim_C1_merge_dedup demoLog demoBatch 5 (by decide) (by decide)⟩

/-- C2: replaying the identical batch adds zero records and returns the
log of the first merge unchanged, for every starting log and batch. -/
theorem claim_C2_merge_idempotent (log : UpdateLog) (batch : Batch)
    (now₁ now₂ : Int) :
    merge (merge log batch now₁).1 batch now₂ = ((merge log batch now₁).1, 0) := by
  apply merge_noop
  intro p hp
  have h := merge_covers batch log now₁ p hp
  obtain ⟨cur, hc⟩ := Option.isSome_iff_exists.mp h.1
  refine ⟨cur, hc, fun r hr => ?_⟩
  have ht := h.2 r hr
  unfold titlesAt at ht
  rw [hc] at ht
  rw [titleMem_iff]
  simpa using ht

def exC3 : UpdateLog := []

def batchC3 : Batch := [("eur-lex", [mkRec "Reg A" none])]

/-- C3 counterexample: when the durable write of a merge that added a
record fails, `check_regulatory_updates` swallows the exception (lines
161-162 only log) and returns `has_new_updates = True` — byte-for-byte
the same caller-visible result as the successful cycle — so the failure
is not reported to the caller as a `PersistenceError`.  Alert
evaluation is indeed skipped. -/
theorem claim_C3_counterexample :
    (checkRegulatoryUpdates exC3 batchC3 5 false).ret = true ∧
    (checkRegulatoryUpdates exC3 batchC3 5 true).ret = true ∧
    (checkRegulatoryUpdates exC3 batchC3 5 false).alertsEvaluated = false := by
  decide

/-- C3 amended: when the durable write of a merge that added at least
one record fails, the merge result is discarded (the persisted log
stays the prior log), no alert evaluation occurs for that cycle, and
the failure is only logged — the call still returns `true`, exactly as
a successful cycle would, surfacing no error to the caller. -/
theorem claim_C3_write_failure (existing : UpdateLog) (batch : Batch)
    (now : Int) (h : 0 < (merge existing batch now).2) :
    checkRegulatoryUpdates existing batch now false =
      { persisted := existing, alertsEvaluated := false, ret := true } := by
  have h₂ : decide (0 < (merge existing batch now).2) = true := decide_eq_true h
  simp [checkRegulatoryUpdates, h₂]

/-- C3 witness: the amended guarantee at a concrete failing cycle. -/
theorem claim_C3_write_failure_witness :
    0 < (merge exC3 batchC3 5).2 ∧
    checkRegulatoryUpdates exC3 batchC3 5 false =
      { persisted := exC3, alertsEvaluated := false, ret := true } :=
  ⟨by decide, claim_C3_write_failure exC3 batchC3 5 (by decide)⟩

/-! ## Evaluator lemmas -/

theorem recentCount_eq_flatten (updates : UpdateLog) (thr : Int) :
    recentCount updates thr =
      ((updates.map Prod.snd).flatten.filter (isRecent thr)).length := by
  induction updates with
  | nil => rfl
  | cons p rest ih =>
    simp [recentCount, ih]

theorem filter_isRecent_dropNone (recs : List UpdateRecord) (thr : Int) :
    (recs.filter (fun r => r.discovered.isSome)).filter (isRecent thr) =
      recs.filter (isRecent thr) := by
  induction recs with
  | nil => rfl
  | cons r rest ih =>
    cases h : r.discovered with
    | none => simp [List.filter_cons, isRecent, h, ih]
    | some t => simp [List.filter_cons, isRecent, h, ih]

theorem recentCount_dropUndiscovered (updates : UpdateLog) (thr : Int) :
    recentCount (dropUndiscovered updates) thr = recentCount updates thr := by
  induction updates with
  | nil => rfl
  | cons p rest ih =>
    obtain ⟨src, recs⟩ := p
    simp only [dropUndiscovered, List.map_cons, recentCount]
    rw [filter_isRecent_dropNone]
    simp only [dropUndiscovered] at ih
    rw [ih]

def futLog : UpdateLog := [("eur-lex", [mkRec "Future" (some 1)])]

def twoLog : UpdateLog :=
  [("eur-lex", [mkRec "R1" (some 9), mkRec "R2" (some 9),
                mkRec "Old" (some 1), mkRec "Unstamped" none])]

/-- C4 counterexample: the evaluator compares only against the lower
bound (`discovered_date >= threshold_date`, line 198), so a record
whose discovery stamp lies after `now` — outside the claimed window
`[now - windowDays, now]` — is still counted and can fire the alert:
with `now = 0`, `windowDays = 7` a record stamped at instant `1` yields
count 1 (and fires at threshold 1) while the claimed window count is
0. -/
theorem claim_C4_counterexample :
    (evaluateAlert futLog 0 7 1).2 = 1 ∧ specWindowCount futLog 0 7 = 0 ∧
      (evaluateAlert futLog 0 7 1).1 = true := by
  decide

/-- C4 amended: the evaluator counts exactly the records, across all
sources, whose `discovered_at` satisfies `now - windowDays ≤
discovered_at` — inclusive lower bound on the discovery time, with no
upper bound, so future-stamped records also count — and fires if and
only if that count reaches the threshold; a record discovered
`windowDays + 1` days ago is excluded, and with threshold 3 a count of
2 does not fire. -/
theorem claim_C4_window (log : UpdateLog) (now windowDays : Int)
    (threshold : Nat) :
    (evaluateAlert log now windowDays threshold).2 =
      ((log.map Prod.snd).flatten.filter (isRecent (now - windowDays))).length ∧
    ((evaluateAlert log now windowDays threshold).1 = true ↔
      threshold ≤ (evaluateAlert log now windowDays threshold).2) ∧
    (∀ r : UpdateRecord, r.discovered = some (now - windowDays) →
      isRecent (now - windowDays) r = true) ∧
    (∀ r : UpdateRecord, r.discovered = some (now - (windowDays + 1)) →
      isRecent (now - windowDays) r = false) ∧
    ((evaluateAlert log now windowDays 3).2 = 2 →
      (evaluateAlert log now windowDays 3).1 = false) := by
  refine ⟨recentCount_eq_flatten log (now - windowDays), ?_, ?_, ?_, ?_⟩
  · simp [evaluateAlert]
  · intro r h
    simp [isRecent, h]
  · intro r h
    simp only [isRecent, h, decide_eq_false_iff_not]
    omega
  · intro h
    simp only [evaluateAlert] at h ⊢
    rw [h]
    decide

/-- C4 witness: the amended guarantees at a concrete log with two
in-window records, one record `windowDays + 1` old and one unstamped,
at threshold 3. -/
theorem claim_C4_window_witness :
    (evaluateAlert twoLog 9 7 3).2 = 2 ∧
    (evaluateAlert twoLog 9 7 3).1 = false ∧
    isRecent (9 - 7) (mkRec "B" (some (9 - 7))) = true ∧
    isRecent (9 - 7) (mkRec "O" (some (9 - (7 + 1)))) = false :=
  ⟨by decide,
   (claim_C4_window twoLog 9 7 3).2.2.2.2 (by decide),
   (claim_C4_window twoLog 9 7 3).2.2.1 (mkRec "B" (some (9 - 7))) rfl,
   (claim_C4_window twoLog 9 7 3).2.2.2.1 (mkRec "O" (some (9 - (7 + 1)))) rfl⟩

def c10Log : UpdateLog := [("eur-lex", [mkRec "N" none, mkRec "R" (some 9)])]

/-- C10: a record lacking a discovery stamp (missing or empty
`discovered_date`, defaulted to `''` on line 198) never matches the
trailing window: dropping all such records changes neither the count
nor the firing decision, and such a record fails the window test
whatever its nominal date. -/
theorem claim_C10_undiscovered (log : UpdateLog) (now windowDays : Int)
    (threshold : Nat) :
    evaluateAlert (dropUndiscovered log) now windowDays threshold =
      evaluateAlert log now windowDays threshold ∧
    ∀ r : UpdateRecord, r.discovered = none →
      isRecent (now - windowDays) r = false := by
  constructor
  · simp [evaluateAlert, recentCount_dropUndiscovered]
  · intro r h
    simp [isRecent, h]

/-- C10 witness: the guarantee at a concrete log holding an unstamped
record. -/
theorem claim_C10_undiscovered_witness :
    evaluateAlert (dropUndiscovered c10Log) 9 7 1 = evaluateAlert c10Log 9 7 1 ∧
    isRecent (9 - 7) (mkRec "N" none) = false :=
  ⟨(claim_C10_undiscovered c10Log 9 7 1).1,
   (claim_C10_undiscovered c10Log 9 7 1).2 (mkRec "N" none) rfl⟩

/-- C6 counterexample: on model output that fails JSON parsing the
boundary of `analyze_compliance` returns the placeholder diagnostics of
lines 64-71, not empty arrays: three of the four arrays are
nonempty. -/
theorem claim_C6_counterexample :
    (analyzeCompliance none "not valid json").regulatoryRequirements ≠ [] ∧
    (analyzeCompliance none "not valid json").complianceGaps ≠ [] ∧
    (analyzeCompliance none "not valid json").risks ≠ [] := by
  decide

/-- C6 amended: on model output that fails JSON parsing the boundary
returns a well-formed result whose arrays hold fixed placeholder
diagnostics — `regulatory_requirements = ["Error parsing AI response"]`,
`compliance_gaps = ["Please try again"]`, `risks = ["Unable to complete
analysis"]` — with `action_items` empty, a zero score and the raw
response text preserved; the embedded boundary is a total function, so
no exception reaches the caller on malformed output. -/
theorem claim_C6_fallback (content : String) :
    (analyzeCompliance none content).regulatoryRequirements =
      ["Error parsing AI response"] ∧
    (analyzeCompliance none content).complianceGaps = ["Please try again"] ∧
    (analyzeCompliance none content).actionItems = [] ∧
    (analyzeCompliance none content).risks = ["Unable to complete analysis"] ∧
    (analyzeCompliance none content).overallComplianceScore = 0 ∧
    (analyzeCompliance none content).rawResponse = some content :=
  ⟨rfl, rfl, rfl, rfl, rfl, rfl⟩

/-! ## Sort lemmas for the notification payload -/

theorem insertDesc_perm (x : UpdateRecord) (l : List UpdateRecord) :
    (insertDesc x l).Perm (x :: l) := by
  induction l with
  | nil => exact List.Perm.refl _
  | cons h t ih =>
    by_cases h₁ : sortKey x < sortKey h
    · simp only [insertDesc, if_pos h₁]
      exact (ih.cons h).trans (List.Perm.swap x h t)
    · simp only [insertDesc, if_neg h₁]
      exact List.Perm.refl _

theorem sortDesc_perm (l : List UpdateRecord) : (sortDesc l).Perm l := by
  induction l with
  | nil => exact List.Perm.refl _
  | cons h t ih =>
    exact (insertDesc_perm h (sortDesc t)).trans (ih.cons h)

theorem pairwise_insertDesc (x : UpdateRecord) (l : List UpdateRecord)
    (hl : l.Pairwise (fun a b => sortKey b ≤ sortKey a)) :
    (insertDesc x l).Pairwise (fun a b => sortKey b ≤ sortKey a) := by
  induction l with
  | nil => simp [insertDesc]
  | cons h t ih =>
    rw [List.pairwise_cons] at hl
    by_cases h₁ : sortKey x < sortKey h
    · simp only [insertDesc, if_pos h₁]
      rw [List.pairwise_cons]
      refine ⟨fun y hy => ?_, ih hl.2⟩
      rcases List.mem_cons.mp ((insertDesc_perm x t).mem_iff.mp hy) with h₂ | h₂
      · exact h₂ ▸ le_of_lt h₁
      · exact hl.1 y h₂
    · simp only [insertDesc, if_neg h₁]
      have hxh : sortKey h ≤ sortKey x := not_lt.mp h₁
      rw [List.pairwise_cons]
      refine ⟨fun y hy => ?_, List.pairwise_cons.mpr hl⟩
      rcases List.mem_cons.mp hy with h₂ | h₂
      · exact h₂ ▸ hxh
      · exact le_trans (hl.1 y h₂) hxh

theorem pairwise_sortDesc (l : List UpdateRecord) :
    (sortDesc l).Pairwise (fun a b => sortKey b ≤ sortKey a) := by
  induction l with
  | nil => simp [sortDesc]
  | cons h t ih => exact pairwise_insertDesc h (sortDesc t) ih

theorem filter_insertDesc (x : UpdateRecord) (l : List UpdateRecord)
    (k : WithBot Int) :
    (insertDesc x l).filter (fun r => decide (sortKey r = k)) =
      if sortKey x = k then
        x :: l.filter (fun r => decide (sortKey r = k))
      else l.filter (fun r => decide (sortKey r = k)) := by
  induction l with
  | nil => by_cases h₂ : sortKey x = k <;> simp [insertDesc, h₂]
  | cons h t ih =>
    by_cases h₁ : sortKey x < sortKey h
    · simp only [insertDesc, if_pos h₁, List.filter_cons]
      by_cases h₂ : sortKey x = k
      · have hh : ¬ (sortKey h = k) := fun he => by
          rw [he, ← h₂] at h₁
          exact lt_irrefl _ h₁
        simp [hh, ih, h₂]
      · simp only [ih, if_neg h₂]
    · simp only [insertDesc, if_neg h₁, List.filter_cons]
      by_cases h₂ : sortKey x = k <;> simp [h₂, List.filter_cons]

theorem filter_sortDesc (l : List UpdateRecord) (k : WithBot Int) :
    (sortDesc l).filter (fun r => decide (sortKey r = k)) =
      l.filter (fun r => decide (sortKey r = k)) := by
  induction l with
  | nil => rfl
  | cons h t ih =>
    simp only [sortDesc, filter_insertDesc, List.filter_cons]
    by_cases h₂ : sortKey h = k <;> simp [h₂, ih]

def exC7 : UpdateLog := [("old-src", [mkRec "O" (some 1)])]

def batchC7 : Batch := [("new-src", [mkRec "N" none])]

/-- C7 counterexample: a firing cycle whose batch only touched
`new-src` still renders an entry for `old-src` — the body builder walks
`updates.items()`, the whole persisted log, not the sources that
received new records in the cycle (the `old-src` entry is bitwise
unchanged by the merge). -/
theorem claim_C7_counterexample :
    (evaluateAlert (merge exC7 batchC7 9).1 9 7 1).1 = true ∧
    getA (merge exC7 batchC7 9).1 "old-src" = getA exC7 "old-src" ∧
    "old-src" ∈ (composeAlertBody (merge exC7 batchC7 9).1).map Prod.fst := by
  decide

/-- C7 amended: the composed payload has one entry for every source
present in the log — whether or not it received new records in the
cycle — and each entry holds at most the 3 most-recently-discovered
records of that source (descending by discovery stamp, ties keeping
original insertion order, the stable-sort contract of Python
`sorted(..., reverse=True)`), each rendered with title, nominal date,
the full content (no truncation in this renderer) and url. -/
theorem claim_C7_payload (updates : UpdateLog) :
    (composeAlertBody updates).map Prod.fst = updates.map Prod.fst ∧
    List.Forall₂ (fun e p => e.1 = p.1 ∧
        e.2 = ((sortDesc p.2).take 3).map renderUpdate ∧ e.2.length ≤ 3)
      (composeAlertBody updates) updates ∧
    (∀ l : List UpdateRecord, (sortDesc l).Perm l ∧
      (sortDesc l).Pairwise (fun a b => sortKey b ≤ sortKey a) ∧
      ∀ k : WithBot Int,
        (sortDesc l).filter (fun r => decide (sortKey r = k)) =
          l.filter (fun r => decide (sortKey r = k))) := by
  refine ⟨?_, ?_, fun l => ⟨sortDesc_perm l, pairwise_sortDesc l, filter_sortDesc l⟩⟩
  · rw [composeAlertBody, List.map_map]
    rfl
  · induction updates with
    | nil => exact List.Forall₂.nil
    | cons p t ih =>
      refine List.Forall₂.cons ⟨rfl, rfl, ?_⟩ ih
      simp only [List.length_map, List.length_take]
      exact min_le_left _ _

/-! ## Dispatch and ledger claims -/

theorem sendAlerts_eq_map (clients : List String) (deliverOk : String → Bool) :
    sendAlertsToClients clients deliverOk =
      clients.map (fun c => (c, deliverOk c)) := by
  induction clients with
  | nil => rfl
  | cons c rest ih => simp [sendAlertsToClients, ih]

/-- C8: when the evaluator fires, every configured recipient gets its
own delivery attempt whatever happens to the others (the per-client
`try/except` of lines 289-312), and the alert event is recorded in the
ledger with `updates_sent = True` (line 216) regardless of any delivery
failure. -/
theorem claim_C8_dispatch (updates : UpdateLog) (clients : List String)
    (ledger : Ledger) (deliverOk : String → Bool) (now windowDays : Int)
    (threshold : Nat)
    (hfire : (evaluateAlert updates now windowDays threshold).1 = true) :
    (checkAndSendAlerts updates clients ledger deliverOk now windowDays
        threshold).1 = clients.map (fun c => (c, deliverOk c)) ∧
    (∀ c ∈ clients, (c, deliverOk c) ∈
      (checkAndSendAlerts updates clients ledger deliverOk now windowDays
        threshold).1) ∧
    getA (checkAndSendAlerts updates clients ledger deliverOk now windowDays
        threshold).2 (alertId now) =
      some (mkAlertEvent now (evaluateAlert updates now windowDays threshold).2) ∧
    (mkAlertEvent now
      (evaluateAlert updates now windowDays threshold).2).updatesSent = true := by
  refine ⟨?_, ?_, ?_, rfl⟩
  · simp [checkAndSendAlerts, hfire, sendAlerts_eq_map]
  · intro c hc
    simp only [checkAndSendAlerts, hfire, if_pos, sendAlerts_eq_map]
    exact List.mem_map.mpr ⟨c, hc, rfl⟩
  · simp [checkAndSendAlerts, hfire, recordAlert, getA_setA_self]

/-- C8 witness: two recipients, the first delivery failing — both are
attempted and the ledger records the event with `updates_sent`. -/
theorem claim_C8_dispatch_witness :
    (evaluateAlert twoLog 9 7 1).1 = true ∧
    (checkAndSendAlerts twoLog ["a", "b"] [] (fun c => c = "b") 9 7 1).1 =
      [("a", false), ("b", true)] ∧
    getA (checkAndSendAlerts twoLog ["a", "b"] [] (fun c => c = "b") 9 7 1).2
      (alertId 9) = some (mkAlertEvent 9 2) := by
  have h := claim_C8_dispatch twoLog ["a", "b"] [] (fun c => c = "b") 9 7 1
    (by decide)
  exact ⟨by decide, h.1.trans (by decide), h.2.2.1.trans (by decide)⟩

/-- C9 counterexample: two alerts fired within the same second share
the id `alert_5`; recording the second rewrites the ledger entry of the
first, so the first event (count 1) is no longer in the ledger — the
ledger is not append-only under id collision. -/
theorem claim_C9_counterexample :
    (alertId 5, mkAlertEvent 5 1) ∈ recordAlert [] 5 1 ∧
    (alertId 5, mkAlertEvent 5 1) ∉ recordAlert (recordAlert [] 5 1) 5 2 := by
  decide

/-- C9 amended: recording an alert event never rewrites or removes any
previously recorded event whose id differs; and when the new id is not
yet present — the firing second is fresh — the ledger is extended by
pure appending.  Two evaluations within the same second share one id
and the later one overwrites the earlier entry. -/
theorem claim_C9_ledger (ledger : Ledger) (now : Int) (count : Nat) :
    (∀ k e, (k, e) ∈ ledger → k ≠ alertId now →
      (k, e) ∈ recordAlert ledger now count) ∧
    (getA ledger (alertId now) = none →
      recordAlert ledger now count =
        ledger ++ [(alertId now, mkAlertEvent now count)]) := by
  constructor
  · intro k e hm hne
    exact mem_setA_of_mem hm hne
  · intro h
    exact setA_of_getA_none ledger (alertId now) _ h

/-- C9 witness: an event recorded at second 5 survives a recording at
second 6, which appends. -/
theorem claim_C9_ledger_witness :
    ((alertId 5, mkAlertEvent 5 1) ∈ recordAlert [] 5 1 ∧
     (alertId 5, mkAlertEvent 5 1) ∈ recordAlert (recordAlert [] 5 1) 6 3) ∧
    (getA (recordAlert [] 5 1) (alertId 6) = none ∧
     recordAlert (recordAlert [] 5 1) 6 3 =
       recordAlert [] 5 1 ++ [(alertId 6, mkAlertEvent 6 3)]) :=
  ⟨⟨by decide,
    (claim_C9_ledger (recordAlert [] 5 1) 6 3).1 (alertId 5) (mkAlertEvent 5 1)
      (by decide) (by decide)⟩,
   ⟨by decide, (claim_C9_ledger (recordAlert [] 5 1) 6 3).2 (by decide)⟩⟩

/-! ## Date-normalizer lemmas -/

theorem splitDash_ne_nil (cs : List Char) : splitDash cs ≠ [] := by
  cases cs with
  | nil => simp [splitDash]
  | cons c t =>
    simp only [splitDash]
    cases splitDash t with
    | nil => simp
    | cons h r => by_cases hc : c = '-' <;> simp [hc]

theorem splitDash_no_dash {cs : List Char} (h : '-' ∉ cs) :
    splitDash cs = [cs] := by
  induction cs with
  | nil => rfl
  | cons c t ih =>
    have hc : c ≠ '-' := fun he => h (he ▸ List.mem_cons_self c t)
    have ht : '-' ∉ t := fun hm => h (List.mem_cons_of_mem c hm)
    simp only [splitDash, ih ht]
    simp [hc]

theorem splitDash_append {a rest : List Char} (h : '-' ∉ a) :
    splitDash (a ++ '-' :: rest) = a :: splitDash rest := by
  induction a with
  | nil =>
    simp only [List.nil_append, splitDash]
    cases hs : splitDash rest with
    | nil => exact absurd hs (splitDash_ne_nil rest)
    | cons hh r => simp
  | cons c a₁ ih =>
    have hc : c ≠ '-' := fun he => h (he ▸ List.mem_cons_self _ _)
    have ha : '-' ∉ a₁ := fun hm => h (List.mem_cons_of_mem c hm)
    rw [List.cons_append]
    simp only [splitDash]
    rw [ih ha]
    simp [hc]

theorem splitDash_eq_one {cs : List Char} : ∀ {a : List Char},
    splitDash cs = [a] → cs = a := by
  induction cs with
  | nil => intro a h; simpa [splitDash] using h.symm
  | cons x t ih =>
    intro a h
    cases hs : splitDash t with
    | nil => exact absurd hs (splitDash_ne_nil t)
    | cons hh r =>
      simp only [splitDash, hs] at h
      by_cases hx : x = '-'
      · simp [hx] at h
      · simp only [if_neg hx] at h
        rcases List.cons_eq_cons.mp h with ⟨h₁, h₂⟩
        subst h₂
        rw [← h₁, ih hs]

theorem splitDash_eq_two {cs : List Char} : ∀ {a b : List Char},
    splitDash cs = [a, b] → cs = a ++ '-' :: b := by
  induction cs with
  | nil => intro a b h; simp [splitDash] at h
  | cons x t ih =>
    intro a b h
    cases hs : splitDash t with
    | nil => exact absurd hs (splitDash_ne_nil t)
    | cons hh r =>
      simp only [splitDash, hs] at h
      by_cases hx : x = '-'
      · simp only [if_pos hx] at h
        rcases List.cons_eq_cons.mp h with ⟨h₁, h₂⟩
        rw [← hs] at h₂
        subst hx
        rw [← h₁, List.nil_append, splitDash_eq_one h₂]
      · simp only [if_neg hx] at h
        rcases List.cons_eq_cons.mp h with ⟨h₁, h₂⟩
        subst h₂
        rw [← h₁, List.cons_append, ih hs]

theorem splitDash_eq_three {cs : List Char} : ∀ {a b c : List Char},
    splitDash cs = [a, b, c] → cs = a ++ '-' :: (b ++ '-' :: c) := by
  induction cs with
  | nil => intro a b c h; simp [splitDash] at h
  | cons x t ih =>
    intro a b c h
    cases hs : splitDash t with
    | nil => exact absurd hs (splitDash_ne_nil t)
    | cons hh r =>
      simp only [splitDash, hs] at h
      by_cases hx : x = '-'
      · simp only [if_pos hx] at h
        rcases List.cons_eq_cons.mp h with ⟨h₁, h₂⟩
        rw [← hs] at h₂
        subst hx
        rw [← h₁, List.nil_append, splitDash_eq_two h₂]
      · simp only [if_neg hx] at h
        rcases List.cons_eq_cons.mp h with ⟨h₁, h₂⟩
        subst h₂
        rw [← h₁, List.cons_append, ih hs]

theorem allDigits_no_dash {a : List Char} (h : allDigits a = true) :
    '-' ∉ a := by
  intro hm
  have h₂ := List.all_eq_true.mp h _ hm
  simp [Char.isDigit] at h₂

theorem splitDash_of_parts {a b c : List Char} (ha : '-' ∉ a) (hb : '-' ∉ b)
    (hc : '-' ∉ c) : splitDash (a ++ '-' :: (b ++ '-' :: c)) = [a, b, c] := by
  rw [splitDash_append ha, splitDash_append hb, splitDash_no_dash hc]

/-- Spec side, claim C5 amended: a dashed shape with 1-2 digit day and
month groups and a 4 digit year group, year-first or year-last, stated
as a concatenation decomposition. -/
def RelaxedDashed (cs : List Char) : Prop :=
  ∃ a b c : List Char, cs = a ++ '-' :: (b ++ '-' :: c) ∧
    allDigits a = true ∧ allDigits b = true ∧ allDigits c = true ∧
    ((a.length = 4 ∧ 1 ≤ b.length ∧ b.length ≤ 2 ∧
        1 ≤ c.length ∧ c.length ≤ 2) ∨
     (1 ≤ a.length ∧ a.length ≤ 2 ∧ 1 ≤ b.length ∧ b.length ≤ 2 ∧
        c.length = 4))

/-- Spec side, claim C5 amended: the full set of accepted stripped
strings — a relaxed dashed shape or exactly eight digits. -/
def RelaxedAccepted (cs : List Char) : Prop :=
  RelaxedDashed cs ∨ (cs.length = 8 ∧ allDigits cs = true)

theorem formatOjdate_str_isSome (s : String) :
    (formatOjdate (.str s)).isSome = true ↔
      ((matchYMD (pyStrip s.data)).isSome = true ∨
       (matchDMY (pyStrip s.data)).isSome = true ∨
       matchCompact (pyStrip s.data) = true) := by
  unfold formatOjdate
  cases hy : matchYMD (pyStrip s.data) with
  | some v =>
    obtain ⟨y, mo, da⟩ := v
    simp [hy]
  | none =>
    cases hd : matchDMY (pyStrip s.data) with
    | some v =>
      obtain ⟨da, mo, y⟩ := v
      simp [hy, hd]
    | none =>
      cases hc : matchCompact (pyStrip s.data) <;> simp [hy, hd, hc]

theorem matchYMD_relaxed {cs : List Char} {y mo da : List Char}
    (h : matchYMD cs = some (y, mo, da)) : RelaxedDashed cs := by
  unfold matchYMD at h
  split at h
  case h_1 a b c heq =>
    split at h
    case isTrue hcond =>
      simp only [Bool.and_eq_true, beq_iff_eq, decide_eq_true_eq] at hcond
      refine ⟨a, b, c, splitDash_eq_three heq, ?_, ?_, ?_,
        Or.inl ⟨?_, ?_, ?_, ?_, ?_⟩⟩ <;> tauto
    case isFalse => exact absurd h (by simp)
  case h_2 => exact absurd h (by simp)

theorem matchDMY_relaxed {cs : List Char} {da mo y : List Char}
    (h : matchDMY cs = some (da, mo, y)) : RelaxedDashed cs := by
  unfold matchDMY at h
  split at h
  case h_1 a b c heq =>
    split at h
    case isTrue hcond =>
      simp only [Bool.and_eq_true, beq_iff_eq, decide_eq_true_eq] at hcond
      refine ⟨a, b, c, splitDash_eq_three heq, ?_, ?_, ?_,
        Or.inr ⟨?_, ?_, ?_, ?_, ?_⟩⟩ <;> tauto
    case isFalse => exact absurd h (by simp)
  case h_2 => exact absurd h (by simp)

theorem relaxed_matches {cs : List Char} (h : RelaxedDashed cs) :
    (matchYMD cs).isSome = true ∨ (matchDMY cs).isSome = true := by
  obtain ⟨a, b, c, hcs, hda, hdb, hdc, hlen⟩ := h
  have hs : splitDash cs = [a, b, c] := by
    rw [hcs]
    exact splitDash_of_parts (allDigits_no_dash hda) (allDigits_no_dash hdb)
      (allDigits_no_dash hdc)
  rcases hlen with hl | hl
  · left
    unfold matchYMD
    rw [hs]
    simp [hda, hdb, hdc, hl.1, hl.2.1, hl.2.2.1, hl.2.2.2.1, hl.2.2.2.2]
  · right
    unfold matchDMY
    rw [hs]
    simp [hda, hdb, hdc, hl.1, hl.2.1, hl.2.2.1, hl.2.2.2.1, hl.2.2.2.2]

theorem matchCompact_iff (cs : List Char) :
    matchCompact cs = true ↔ cs.length = 8 ∧ allDigits cs = true := by
  simp [matchCompact]

/-- C5 counterexample: `_format_ojdate` accepts `"2025-9-1"` — the
month and day regex groups are `\d{1,2}`, not fixed-width — and
returns `"01092025"` instead of failing, although the string is in none
of the three fixed-width formats of the claim. -/
theorem claim_C5_counterexample :
    formatOjdate (.str "2025-9-1") = some "01092025" ∧
    specAccepted "2025-9-1" = false := by
  decide

/-- C5 amended: `_format_ojdate` succeeds exactly on date objects and
on strings that, after stripping surrounding whitespace, are either a
dashed date whose day and month groups have one or two digits and whose
year group has four (year-first or year-last), or exactly eight digits;
every other input raises the `ValueError` (`InvalidDateFormat`).  The
three documented round-trips hold, `"2025/09/10"` fails, and the
relaxed acceptance is witnessed by `"2025-9-1" ↦ "01092025"`. -/
theorem claim_C5_normalizer (s : String) (d m y : Nat) :
    ((formatOjdate (.str s)).isSome = true ↔
      RelaxedAccepted (pyStrip s.data)) ∧
    (formatOjdate (.dateObj d m y)).isSome = true ∧
    formatOjdate (.str "2025-09-10") = some "10092025" ∧
    formatOjdate (.str "10-09-2025") = some "10092025" ∧
    formatOjdate (.str "10092025") = some "10092025" ∧
    formatOjdate (.str "2025/09/10") = none ∧
    formatOjdate (.str "2025-9-1") = some "01092025" := by
  refine ⟨?_, rfl, by decide, by decide, by decide, by decide, by decide⟩
  rw [formatOjdate_str_isSome]
  constructor
  · rintro (hy | hd | hc)
    · obtain ⟨⟨a, b, c⟩, h⟩ := Option.isSome_iff_exists.mp hy
      exact Or.inl (matchYMD_relaxed h)
    · obtain ⟨⟨a, b, c⟩, h⟩ := Option.isSome_iff_exists.mp hd
      exact Or.inl (matchDMY_relaxed h)
    · exact Or.inr ((matchCompact_iff _).mp hc)
  · rintro (h | h)
    · rcases relaxed_matches h with h₂ | h₂
      · exact Or.inl h₂
      · exact Or.inr (Or.inl h₂)
    · exact Or.inr (Or.inr ((matchCompact_iff _).mpr h))

end EUCompliance
